import Mathlib

/-!
Shallow embedding of the context-management and streaming-conversation
subsystem of the chat-plugin browser extension, together with proofs that
check the specification claims against the code.

Modelling conventions:
 - JS strings are Lean `String`s (or `List Char` where character-level
   induction is needed); all string literals in the source are BMP text,
   so JS UTF-16 lengths coincide with Lean character counts.
 - Awaited results of external calls (network fetches, the LLM transport,
   summary generation) are passed in as explicit parameters: the embedding
   is the synchronous data flow of the source, with every suspension point
   replaced by an input.
 - JS `Map`s are insertion-ordered association lists.
 - Fallible JS code (functions that may throw) returns `Except String`.
-/

deriving instance DecidableEq for Except

/-- `ContextManager.estimateTokenCount` (storage-manager.js:1402):
`Math.ceil(text.length / 4)`. -/
def estimateTokenCount (text : String) : Nat :=
  (text.length + 3) / 4

/-- Repository descriptor handed to the context manager.  A missing/empty
`language` or `description` is the empty string (JS falsy). -/
structure RepositoryInfo where
  fullName : String
  branch : String
  language : String
  description : String
deriving Repr, DecidableEq

/-- JS `x || d` for strings: the default replaces a falsy (empty) value. -/
def jsOr (s d : String) : String := if s = "" then d else s

/-- `ContextManager.buildSystemPrompt` (storage-manager.js:853). -/
def buildSystemPrompt (r : RepositoryInfo) : String :=
  "你是一个专业的GitHub代码分析助手，正在分析以下仓库：\n\n仓库信息：\n- 名称: "
    ++ r.fullName
    ++ "\n- 分支: " ++ r.branch
    ++ "\n- 语言: " ++ jsOr r.language "未知"
    ++ "\n- 描述: " ++ jsOr r.description "无描述"
    ++ "\n\n你的职责：\n1. 基于仓库的实际代码内容回答问题\n2. 提供准确的代码分析和解释\n3. 帮助用户理解项目结构和功能\n4. 当用户使用@文件名引用文件时，优先基于该文件内容回答\n5. 保持回答的准确性，不要编造不存在的代码或功能\n\n注意事项：\n- 始终基于实际的代码库内容进行回答\n- 如果不确定某个功能或代码，请明确说明\n- 优先引用具体的文件和代码片段来支持你的回答\n- 保持专业和友好的语调"

/-- A message held by `ContextManager` conversations.  `isSummary` models
`metadata.type === "summary"`. -/
structure Message where
  role : String
  content : String
  originalContent : String := ""
  tokenCount : Nat
  fileReferences : List String := []
  isSummary : Bool := false
deriving Repr, DecidableEq

/-- A `ContextManager` conversation: the fields of the object literal built
in `createConversation` (storage-manager.js:806) that the core logic reads
or writes.  `totalMessages` and `summaryCount` are `metadata.totalMessages`
and `metadata.summaryCount`. -/
structure Conversation where
  repository : RepositoryInfo
  messages : List Message
  summary : String
  fileReferences : List String
  tokenCount : Nat
  totalMessages : Nat
  summaryCount : Nat
deriving Repr, DecidableEq

/-- The configuration fields of `ContextManager` used by the append and
compression logic (constructor defaults at storage-manager.js:782). -/
structure CtxConfig where
  maxContextLength : Nat := 8000
  summaryTriggerPercentage : Nat := 75
  autoSummarize : Bool := true
deriving Repr, DecidableEq

/-- `ContextManager.addSystemMessage` (storage-manager.js:836): pushes a
system message whose own `tokenCount` field is `0` while adding the
estimate of its content to the conversation total. -/
def ContextManager.addSystemMessage (conv : Conversation) (r : RepositoryInfo) :
    Conversation :=
  let systemMessage : Message :=
    { role := "system", content := buildSystemPrompt r, tokenCount := 0 }
  { conv with
      messages := conv.messages ++ [systemMessage],
      tokenCount := conv.tokenCount + estimateTokenCount systemMessage.content }

/-- `ContextManager.createConversation` (storage-manager.js:806). -/
def ContextManager.createConversation (r : RepositoryInfo) : Conversation :=
  ContextManager.addSystemMessage
    { repository := r, messages := [], summary := "", fileReferences := [],
      tokenCount := 0, totalMessages := 0, summaryCount := 0 } r

/-- `ContextManager.shouldCompressContext` (storage-manager.js:1234).
The JS comparison `tokenCount > maxContextLength * (pct / 100)` is done in
floating point; both sides are integers scaled by 100 here, which agrees
with the source at the default configuration (8000, 75) and whenever the
float product is exact. -/
def ContextManager.shouldCompressContext (cfg : CtxConfig) (conv : Conversation) :
    Bool :=
  cfg.autoSummarize &&
    conv.tokenCount * 100 > cfg.maxContextLength * cfg.summaryTriggerPercentage

/-- `ContextManager.compressContext` (storage-manager.js:1244), with the
awaited `generateSummary` result passed in as `summary` (it is an LLM call
with a deterministic local fallback; either way a string comes back and
the surrounding try/catch absorbs failures).  `slice(-5)` and
`slice(1, -5)` are the drop/take combinations below. -/
def ContextManager.compressContext (conv : Conversation) (summary : String) :
    Conversation :=
  let recentMessages := conv.messages.drop (conv.messages.length - 5)
  let messagesToSummarize := (conv.messages.take (conv.messages.length - 5)).drop 1
  if messagesToSummarize.length = 0 then conv
  else
    let summaryMessage : Message :=
      { role := "system",
        content := "--- 对话摘要 ---\n" ++ summary,
        tokenCount := estimateTokenCount summary,
        isSummary := true }
    let newMessages := conv.messages.take 1 ++ [summaryMessage] ++ recentMessages
    { conv with
        messages := newMessages,
        summary := summary,
        summaryCount := conv.summaryCount + 1,
        tokenCount := (newMessages.map Message.tokenCount).foldl (· + ·) 0 }

/-- The awaited results of the external calls made inside
`ContextManager.addMessage` (storage-manager.js:877): the enhanced content
built by `enhanceMessageWithContext` from the network-resolved files, the
paths returned by the reference parse, and the summary string that
`generateSummary` would produce if compression triggers on this append. -/
structure AppendInput where
  role : String
  content : String
  enhancedContent : String
  refPaths : List String
  summary : String
deriving Repr, DecidableEq

/-- JS `Set.add` over an insertion-ordered list. -/
def setAdd (s : List String) (p : String) : List String :=
  if p ∈ s then s else s ++ [p]

/-- The message object built inside `ContextManager.addMessage`
(storage-manager.js:896): its `tokenCount` is the estimate of the enhanced
content. -/
def ContextManager.appendedMessage (inp : AppendInput) : Message :=
  { role := inp.role,
    content := inp.enhancedContent,
    originalContent := inp.content,
    tokenCount := estimateTokenCount inp.enhancedContent,
    fileReferences := inp.refPaths }

/-- The conversation right after the push step of
`ContextManager.addMessage` (storage-manager.js:911): reference set
updated, message pushed, its token count added to the total, message
counter bumped — before the compression check. -/
def ContextManager.pushedConversation (conv : Conversation) (inp : AppendInput) :
    Conversation :=
  { conv with
      fileReferences := inp.refPaths.foldl setAdd conv.fileReferences,
      messages := conv.messages ++ [ContextManager.appendedMessage inp],
      tokenCount := conv.tokenCount + (ContextManager.appendedMessage inp).tokenCount,
      totalMessages := conv.totalMessages + 1 }

/-- The body of `ContextManager.addMessage` (storage-manager.js:877) after
the current-conversation null check: build the message, update the
reference set, push, add the message token count to the total, and run the
compression check. -/
def ContextManager.appendToConversation (cfg : CtxConfig) (conv : Conversation)
    (inp : AppendInput) : Conversation × Message :=
  let message := ContextManager.appendedMessage inp
  let pushed := ContextManager.pushedConversation conv inp
  if ContextManager.shouldCompressContext cfg pushed then
    (ContextManager.compressContext pushed inp.summary, message)
  else (pushed, message)

/-- Manager-level state: the conversations map plus the current id. -/
structure CtxState where
  conversations : List (String × Conversation)
  currentConversationId : Option String
deriving Repr, DecidableEq

/-- Association-list lookup (JS `Map.get`). -/
def mapGet? {α : Type} (l : List (String × α)) (k : String) : Option α :=
  match l with
  | [] => none
  | (k₀, v) :: rest => if k₀ = k then some v else mapGet? rest k

/-- Association-list update (JS `Map.set`): replace in place, else append. -/
def mapSet {α : Type} (l : List (String × α)) (k : String) (v : α) :
    List (String × α) :=
  match l with
  | [] => [(k, v)]
  | (k₀, v₀) :: rest =>
      if k₀ = k then (k₀, v) :: rest else (k₀, v₀) :: mapSet rest k v

/-- `ContextManager.getCurrentConversation`. -/
def ContextManager.getCurrentConversation (st : CtxState) : Option Conversation :=
  match st.currentConversationId with
  | none => none
  | some cid => mapGet? st.conversations cid

/-- `ContextManager.addMessage` (storage-manager.js:877) at the manager
boundary: throws `No active conversation` when there is no current
conversation (the thrown case leaves the state untouched), otherwise runs
the append body on the current conversation. -/
def ContextManager.addMessage (cfg : CtxConfig) (st : CtxState)
    (inp : AppendInput) : CtxState × Except String Message :=
  match st.currentConversationId with
  | none => (st, Except.error "No active conversation")
  | some cid =>
      match mapGet? st.conversations cid with
      | none => (st, Except.error "No active conversation")
      | some conv =>
          let (conv2, message) := ContextManager.appendToConversation cfg conv inp
          ({ st with conversations := mapSet st.conversations cid conv2 },
           Except.ok message)

/-- Fold a sequence of appends over one conversation (each step is the
successful body of `ContextManager.addMessage`). -/
def runAppends (cfg : CtxConfig) (conv : Conversation) (l : List AppendInput) :
    Conversation :=
  l.foldl (fun c inp => (ContextManager.appendToConversation cfg c inp).1) conv

/-- Sum of the `tokenCount` fields of the messages currently in a
conversation. -/
def sumTokens (conv : Conversation) : Nat :=
  (conv.messages.map Message.tokenCount).sum

/-- The characters matched by the regex class `\s` (the parser and the
call sites only ever meet ASCII whitespace, so the ASCII subset of the JS
class is modelled). -/
def isJsSpace (c : Char) : Bool :=
  c = ' ' || c = '\t' || c = '\n' || c = '\r' || c = '\x0b' || c = '\x0c'

/-- One match of the global regex `@([^\s]+)`: the captured path, the full
matched substring, and its character offset. -/
structure RefMatch where
  path : List Char
  matched : List Char
  index : Nat
deriving Repr, DecidableEq

/-- Worker for `scanRefs`, structurally recursive on a fuel argument so
that the scan computes by kernel reduction; the scanned list shrinks by at
least one character per step, so fuel equal to the input length (as
supplied by `scanRefs`) never runs out. -/
def scanRefsGo : Nat → List Char → Nat → List RefMatch
  | 0, _, _ => []
  | _ + 1, [], _ => []
  | fuel + 1, c :: rest, i =>
      if c = '@' then
        let tok := rest.takeWhile (fun ch => !isJsSpace ch)
        if tok.isEmpty then scanRefsGo fuel rest (i + 1)
        else
          { path := tok, matched := '@' :: tok, index := i } ::
            scanRefsGo fuel (rest.drop tok.length) (i + 1 + tok.length)
      else scanRefsGo fuel rest (i + 1)

/-- Left-to-right scan of `regex.exec` / `matchAll` with the pattern
`@([^\s]+)`: at an `@` the capture is the maximal following run of
non-whitespace characters (which may itself contain further `@`s, exactly
as the greedy JS class does); an `@` with no following non-whitespace
character matches nothing and scanning resumes one character later. -/
def scanRefs (cs : List Char) (i : Nat) : List RefMatch :=
  scanRefsGo cs.length cs i

/-- An entry returned by `FileReferenceManager.parseFileReferences`
(file-reference.js:469): `file` is the entry found in `flatFileList`
(modelled by its path). -/
structure ParsedRef where
  path : List Char
  file : List Char
  matched : List Char
  index : Nat
deriving Repr, DecidableEq

/-- `FileReferenceManager.parseFileReferences` (file-reference.js:469):
scan for `@path` tokens, then keep only those whose path is found in the
loaded `flatFileList`. -/
def FileReferenceManager.parseFileReferences (flatFileList : List (List Char))
    (message : List Char) : List ParsedRef :=
  (scanRefs message 0).filterMap fun m =>
    match flatFileList.find? (fun f => f == m.path) with
    | some f =>
        some { path := m.path, file := f, matched := m.matched, index := m.index }
    | none => none

/-- JS `String.replace` with a plain string pattern: replace the first
occurrence only.  (The `$`-escape sequences of a string replacement are
not exercised by the call sites modelled here.) -/
def replaceFirst (s pat repl : List Char) : List Char :=
  match s with
  | [] => []
  | c :: rest =>
      if pat.isPrefixOf (c :: rest) then repl ++ (c :: rest).drop pat.length
      else c :: replaceFirst rest pat repl

/-- Whether `sub` occurs as a contiguous substring of `s`. -/
def containsSub (s sub : List Char) : Bool :=
  match s with
  | [] => sub.isEmpty
  | _ :: rest => sub.isPrefixOf s || containsSub rest sub

/-- The replacement text built in `ChatWindow.processFileReferences`
(storage-manager.js:2661). -/
def ChatWindow.fileReplacement (filePath fileContent : List Char) : List Char :=
  "\n\n**文件: ".toList ++ filePath ++ "**\n```\n".toList ++ fileContent
    ++ "\n```\n\n".toList

/-- `ChatWindow.processFileReferences` (storage-manager.js:2646): the match
list is computed once on the original message; each resolvable reference
replaces the first occurrence of its matched text in the evolving string;
a failed resolution (`readFileContent` throwing) is swallowed and leaves
the text as it stands.  `resolver` is the awaited `readFileContent`:
`none` models a throw. -/
def ChatWindow.processFileReferences (resolver : List Char → Option (List Char))
    (message : List Char) : List Char :=
  (scanRefs message 0).foldl
    (fun processed m =>
      match resolver m.path with
      | some fileContent =>
          replaceFirst processed m.matched (ChatWindow.fileReplacement m.path fileContent)
      | none => processed)
    message

/-- A message stored by `ConversationManager` (conversation-manager.js:75). -/
structure CMMessage where
  id : String
  role : String
  content : String
  timestamp : Nat
  images : List String := []
deriving Repr, DecidableEq

/-- A `ConversationManager` conversation (conversation-manager.js:27). -/
structure CMConversation where
  id : String
  title : String
  messages : List CMMessage
  createdAt : Nat
  updatedAt : Nat
deriving Repr, DecidableEq

/-- `ConversationManager` state: current id plus the insertion-ordered
conversations map. -/
structure CMState where
  currentConversationId : Option String
  conversations : List (String × CMConversation)
deriving Repr, DecidableEq

/-- JS `Map.delete` (keys are unique in a `Map`). -/
def mapDelete {α : Type} (l : List (String × α)) (k : String) :
    List (String × α) :=
  l.filter (fun p => !(p.1 == k))

/-- `ConversationManager.getCurrentConversation` (conversation-manager.js:46). -/
def ConversationManager.getCurrentConversation (st : CMState) :
    Option CMConversation :=
  match st.currentConversationId with
  | none => none
  | some cid => mapGet? st.conversations cid

/-- `ConversationManager.createNewConversation` (conversation-manager.js:25).
`freshId` is the generated id and `dateStr` the locale date string used in
the default title; `title = none` models the `null` default argument and
the `title || default` falsy check. -/
def ConversationManager.createNewConversation (st : CMState) (freshId : String)
    (title : Option String) (dateStr : String) (now : Nat) : CMState :=
  let titleValue :=
    match title with
    | some t => if t = "" then "新对话 " ++ dateStr else t
    | none => "新对话 " ++ dateStr
  let conversation : CMConversation :=
    { id := freshId, title := titleValue, messages := [],
      createdAt := now, updatedAt := now }
  { st with
      conversations := mapSet st.conversations freshId conversation,
      currentConversationId := some freshId }

/-- `ConversationManager.addMessage` (conversation-manager.js:68): append
to the current conversation and, when the appended message is the first
user-role message, set the title to the first 20 characters of the content
plus an ellipsis when the content is longer (`substring(0, 20)` — the
content is not trimmed here).  Returns `none` (no throw, no append) when
there is no current conversation. -/
def ConversationManager.addMessage (st : CMState) (role content : String)
    (msgId : String) (now : Nat) (images : List String := []) :
    Option CMMessage × CMState :=
  match st.currentConversationId with
  | none => (none, st)
  | some cid =>
      match mapGet? st.conversations cid with
      | none => (none, st)
      | some conversation =>
          let message : CMMessage :=
            { id := msgId, role := role, content := content, timestamp := now,
              images := images }
          let conv1 :=
            { conversation with
                messages := conversation.messages ++ [message], updatedAt := now }
          let conv2 :=
            if role == "user" &&
                (conv1.messages.filter (fun m => m.role == "user")).length == 1 then
              { conv1 with
                  title := content.take 20 ++ (if content.length > 20 then "..." else "") }
            else conv1
          (some message,
           { st with conversations := mapSet st.conversations cid conv2 })

/-- `ConversationManager.getAllConversations` (conversation-manager.js:102):
values sorted by `updatedAt` descending; the JS sort is stable, as is
`mergeSort`. -/
def ConversationManager.getAllConversations (st : CMState) : List CMConversation :=
  (st.conversations.map Prod.snd).mergeSort
    (fun a b => decide (b.updatedAt ≤ a.updatedAt))

/-- `ConversationManager.deleteConversation` (conversation-manager.js:108):
unknown id returns `false` and changes nothing; deleting the current
conversation switches to the head of `getAllConversations` or creates a
fresh conversation when none remain. -/
def ConversationManager.deleteConversation (st : CMState)
    (conversationId : String) (freshId dateStr : String) (now : Nat) :
    Bool × CMState :=
  match mapGet? st.conversations conversationId with
  | none => (false, st)
  | some _ =>
      let st1 := { st with conversations := mapDelete st.conversations conversationId }
      let st2 :=
        if st.currentConversationId = some conversationId then
          match ConversationManager.getAllConversations st1 with
          | c :: _ => { st1 with currentConversationId := some c.id }
          | [] => ConversationManager.createNewConversation st1 freshId none dateStr now
        else st1
      (true, st2)

/-- JS `String.prototype.trim` modelled at character level: strip leading
and trailing whitespace. -/
def jsTrim (s : String) : String :=
  String.mk (((s.toList.dropWhile isJsSpace).reverse.dropWhile isJsSpace).reverse)

/-- The `ChatWindow` fields driving the send/stream/cancel logic
(storage-manager.js): the response lock, the abort controller handle, the
model-selector state, the input box, pending images, the conversation
manager, the legacy `messageHistory`, and a count of transport invocations
(`apiManager.sendMessage` calls). -/
structure ChatState where
  isResponding : Bool
  hasAbortController : Bool
  modelSelected : Bool
  inputValue : String
  uploadedImages : List String
  cm : CMState
  messageHistory : List (String × String)
  transportCalls : Nat
deriving Repr, DecidableEq

/-- `ChatWindow.addMessage` (storage-manager.js:1768): persist through the
conversation manager and the legacy history list (DOM rendering elided). -/
def ChatWindow.addMessage (st : ChatState) (role content : String)
    (msgId : String) (now : Nat) (images : List String := []) : ChatState :=
  { st with
      cm := (ConversationManager.addMessage st.cm role content msgId now images).2,
      messageHistory := st.messageHistory ++ [(role, content)] }

/-- The part of `ChatWindow.sendMessage` (storage-manager.js:1695) that
runs before the first await: the empty-input guard, the `isResponding`
rejection, the model-selector guard, clearing the input and images,
appending the user message, raising the response lock, creating the
abort controller, and reaching the transport call (counted in
`transportCalls`).  A rejected send returns the state unchanged. -/
def ChatWindow.sendMessageStart (st : ChatState) (msgId : String) (now : Nat) :
    ChatState :=
  let message := jsTrim st.inputValue
  if message = "" then st
  else if st.isResponding then st
  else if !st.modelSelected then
    ChatWindow.addMessage st "system" "请先选择一个模型" msgId now
  else
    let uploadedImages := st.uploadedImages
    let st1 := { st with inputValue := "", uploadedImages := [] }
    let st2 := ChatWindow.addMessage st1 "user" message msgId now uploadedImages
    { st2 with
        isResponding := true, hasAbortController := true,
        transportCalls := st2.transportCalls + 1 }

/-- `ChatWindow.buildMessageHistory` (storage-manager.js:2603): fixed
system prompt, the last 10 non-system conversation messages with file
references processed, then the processed current message. -/
def ChatWindow.buildMessageHistory (resolver : List Char → Option (List Char))
    (st : ChatState) (currentMessage : String) : List (String × String) :=
  let base := [("system",
    "You are a helpful AI assistant for GitHub code analysis. Please provide clear and concise responses.")]
  let hist :=
    match ConversationManager.getCurrentConversation st.cm with
    | none => []
    | some conversation =>
        ((conversation.messages.drop (conversation.messages.length - 10)).filter
            (fun m => !(m.role == "system"))).map
          (fun m =>
            (m.role,
             String.mk (ChatWindow.processFileReferences resolver m.content.toList)))
  base ++ hist ++
    [("user", String.mk (ChatWindow.processFileReferences resolver currentMessage.toList))]

/-- `ChatWindow.cancelResponse` (storage-manager.js:1912): when an abort
controller exists, abort it, drop the lock and the controller. -/
def ChatWindow.cancelResponse (st : ChatState) : ChatState :=
  if st.hasAbortController then
    { st with isResponding := false, hasAbortController := false }
  else st

/-- One read delivered to `StreamHandler.handleStreamResponse`: a data
frame whose parsed delta content is `content` (the SSE line splitting and
JSON parsing of the wire format happen at the transport boundary;
malformed frames are skipped there and arrive as empty content), or the
terminal `[DONE]` frame. -/
inductive StreamRead where
  | chunk (content : String)
  | doneData
deriving Repr, DecidableEq

/-- How the read loop of `handleStreamResponse` ends: `finalized` means
`finalizeStreamingMessage` ran with the given content; `ended` models the
reader reporting `done` without a `[DONE]` frame, where the loop breaks
without finalizing. -/
inductive StreamOutcome where
  | finalized (content : String)
  | ended (buffer : String)
deriving Repr, DecidableEq

/-- The cancellation marker appended by `handleStreamResponse`
(stream-handler.js:22). -/
def cancelledMarker : String := "\n\n[响应已取消]"

/-- The read loop of `StreamHandler.handleStreamResponse`
(stream-handler.js:18): before each read the abort signal is checked, and
an observed abort finalizes with the accumulated buffer plus the
cancellation marker; a `[DONE]` frame finalizes with the buffer; the
reader running dry breaks without finalizing.  `cancelAt = some k` means
the abort signal becomes visible before the k-th read. -/
def StreamHandler.streamRun (reads : List StreamRead) (cancelAt : Option Nat)
    (fullContent : String) : StreamOutcome :=
  if cancelAt = some 0 then .finalized (fullContent ++ cancelledMarker)
  else
    match reads with
    | [] => .ended fullContent
    | .doneData :: _ => .finalized fullContent
    | .chunk c :: rest =>
        StreamHandler.streamRun rest (cancelAt.map (· - 1)) (fullContent ++ c)
termination_by reads.length
decreasing_by
  all_goals simp only [List.length_cons]
  all_goals omega

/-- `StreamHandler.finalizeStreamingMessage` (stream-handler.js:108):
persist the assistant content through the conversation manager and the
legacy history. -/
def StreamHandler.finalizeStreamingMessage (st : ChatState) (content : String)
    (msgId : String) (now : Nat) : ChatState :=
  { st with
      cm := (ConversationManager.addMessage st.cm "assistant" content msgId now).2,
      messageHistory := st.messageHistory ++ [("assistant", content)] }

/-- `StreamHandler.handleStreamResponse` (stream-handler.js:8) as a whole:
run the read loop and persist on the finalizing outcomes. -/
def StreamHandler.handleStreamResponse (st : ChatState) (reads : List StreamRead)
    (cancelAt : Option Nat) (msgId : String) (now : Nat) : ChatState :=
  match StreamHandler.streamRun reads cancelAt "" with
  | .finalized content => StreamHandler.finalizeStreamingMessage st content msgId now
  | .ended _ => st

/-- The awaited outcome of `apiManager.sendMessage`: a stream of reads, or
a setup failure before any chunk. -/
inductive TransportResult where
  | ok (reads : List StreamRead)
  | setupError (msg : String)
deriving Repr, DecidableEq

/-- The rest of `ChatWindow.sendMessage` after the transport call: stream
handling on success, the catch branch appending a system error message on
setup failure, and the `finally` block dropping the lock and the abort
controller. -/
def ChatWindow.sendMessageFinish (st : ChatState) (transport : TransportResult)
    (cancelAt : Option Nat) (msgId : String) (now : Nat) : ChatState :=
  let st1 :=
    match transport with
    | .ok reads => StreamHandler.handleStreamResponse st reads cancelAt msgId now
    | .setupError e => ChatWindow.addMessage st "system" ("发送消息失败: " ++ e) msgId now
  { st1 with isResponding := false, hasAbortController := false }

/-- Outcome of one JS `fetch` of a raw-content URL. -/
inductive FetchResult where
  | ok (body : String)
  | status (code : Nat)
  | networkError (msg : String)
deriving Repr, DecidableEq

/-- Repository coordinates used by the direct fetchers. -/
structure RepoRef where
  owner : String
  repo : String
  branch : String
deriving Repr, DecidableEq

/-- The raw-content URL built by both direct fetchers. -/
def rawUrl (owner repo branch filePath : String) : String :=
  "https://raw.githubusercontent.com/" ++ owner ++ "/" ++ repo ++ "/"
    ++ branch ++ "/" ++ filePath

/-- JS `arr.filter((b, i, arr) => arr.indexOf(b) === i)`: keep the first
occurrence of each element. -/
def dedupFirst (l : List String) : List String :=
  l.foldl (fun acc b => if b ∈ acc then acc else acc ++ [b]) []

/-- The branch loop of `ChatWindow.fetchFileDirectly`
(storage-manager.js:2721): try each branch in turn, return the first ok
body, throw after exhausting all branches.  The second component records
every URL actually fetched. -/
def ChatWindow.tryBranches (fetch : String → FetchResult)
    (owner repo filePath : String) :
    List String → Except String String × List String
  | [] =>
      (.error ("文件 \"" ++ filePath ++ "\" 在仓库 " ++ owner ++ "/" ++ repo
          ++ " 的所有分支中都不存在"), [])
  | currentBranch :: rest =>
      let url := rawUrl owner repo currentBranch filePath
      match fetch url with
      | .ok body => (.ok body, [url])
      | _ =>
          let r := ChatWindow.tryBranches fetch owner repo filePath rest
          (r.1, url :: r.2)

/-- `ChatWindow.fetchFileDirectly` (storage-manager.js:2715): branches
`[branch, "main", "master"]` deduplicated, no cache of any kind. -/
def ChatWindow.fetchFileDirectly (fetch : String → FetchResult)
    (repoInfo : RepoRef) (filePath : String) :
    Except String String × List String :=
  ChatWindow.tryBranches fetch repoInfo.owner repoInfo.repo filePath
    (dedupFirst [repoInfo.branch, "main", "master"])

/-- The branch loop of `GitHubChatAssistant.fetchFileFromGitHub`
(content script, src/unnamed/part_000:407). -/
def GitHubChatAssistant.tryBranchesRaw (fetch : String → FetchResult)
    (owner repo filePath : String) :
    List String → Except String String × List String
  | [] => (.error ("无法从任何分支获取文件 " ++ filePath), [])
  | currentBranch :: rest =>
      let url := rawUrl owner repo currentBranch filePath
      match fetch url with
      | .ok body => (.ok body, [url])
      | _ =>
          let r := GitHubChatAssistant.tryBranchesRaw fetch owner repo filePath rest
          (r.1, url :: r.2)

/-- `GitHubChatAssistant.fetchFileFromGitHub` (src/unnamed/part_000:387):
the detected branch plus the conventional alternate (`main` ⇄ `master`);
no cache of any kind. -/
def GitHubChatAssistant.fetchFileFromGitHub (fetch : String → FetchResult)
    (owner repo branch filePath : String) :
    Except String String × List String :=
  let branches :=
    if branch = "main" then [branch, "master"]
    else if branch = "master" then [branch, "main"]
    else [branch]
  GitHubChatAssistant.tryBranchesRaw fetch owner repo filePath branches

/-- The JSON body of a GitHub contents-API response as consumed by
`GitHubAPI.getFileContent`; `content` is the text after the base64
decoding done at the wire boundary. -/
structure GHFileData where
  type : String
  name : String
  path : String
  content : String
  size : Nat
  sha : String
  encoding : String
  downloadUrl : String
deriving Repr, DecidableEq

/-- Outcome of one JS `fetch` of a contents-API URL. -/
inductive GHResponse where
  | ok (data : GHFileData)
  | status (code : Nat)
  | networkError (msg : String)
deriving Repr, DecidableEq

/-- The file-info record cached and returned by `GitHubAPI.getFileContent`
(simple-file-reference.js:825). -/
structure FileInfo where
  name : String
  path : String
  content : String
  size : Nat
  sha : String
  encoding : String
  downloadUrl : String
deriving Repr, DecidableEq

/-- `GitHubAPI` state: resolved repository coordinates and the bounded
in-memory file cache. -/
structure GHState where
  repoInfo : RepoRef
  fileCache : List (String × FileInfo)
deriving Repr, DecidableEq

/-- `this.baseUrl` of `GitHubAPI` (simple-file-reference.js:589). -/
def GitHubAPI.baseUrl : String := "https://api.github.com"

/-- The contents-API URL built in `GitHubAPI.getFileContent`
(simple-file-reference.js:808). -/
def GitHubAPI.contentsUrl (owner repo filePath branch : String) : String :=
  GitHubAPI.baseUrl ++ "/repos/" ++ owner ++ "/" ++ repo ++ "/contents/"
    ++ filePath ++ "?ref=" ++ branch

/-- `GitHubAPI.getFileContent` (simple-file-reference.js:795): cache hit
under the key `owner/repo/branch/path` returns without fetching; otherwise
one fetch of the requested branch only — a non-ok status throws
`GitHub API error: <status>` with no branch fallback; an ok response is
cached under the same requested-branch key while the cache holds fewer
than 100 entries.  The third component records every URL fetched. -/
def GitHubAPI.getFileContent (st : GHState) (fetch : String → GHResponse)
    (filePath : String) : Except String FileInfo × GHState × List String :=
  let key := st.repoInfo.owner ++ "/" ++ st.repoInfo.repo ++ "/"
      ++ st.repoInfo.branch ++ "/" ++ filePath
  match mapGet? st.fileCache key with
  | some cached => (.ok cached, st, [])
  | none =>
      let url := GitHubAPI.contentsUrl st.repoInfo.owner st.repoInfo.repo
          filePath st.repoInfo.branch
      match fetch url with
      | .status code => (.error ("GitHub API error: " ++ toString code), st, [url])
      | .networkError msg => (.error msg, st, [url])
      | .ok data =>
          if data.type ≠ "file" then (.error "Path is not a file", st, [url])
          else
            let fileInfo : FileInfo :=
              { name := data.name, path := data.path, content := data.content,
                size := data.size, sha := data.sha, encoding := data.encoding,
                downloadUrl := data.downloadUrl }
            let cache2 :=
              if st.fileCache.length < 100 then mapSet st.fileCache key fileInfo
              else st.fileCache
            (.ok fileInfo, { st with fileCache := cache2 }, [url])

/-- Left fold of string concatenation, as performed by the
`fullContent += content` accumulation of the stream loop. -/
def joinAll (acc : String) (l : List String) : String :=
  l.foldl (· ++ ·) acc

/-- Well-formedness of a `ConversationManager` state: every map value
carries its own key as `id` (maintained by `createNewConversation`) and
keys are unique (JS `Map` keys always are). -/
def cmWellFormed (st : CMState) : Prop :=
  (∀ p ∈ st.conversations, p.2.id = p.1) ∧ (st.conversations.map Prod.fst).Nodup

/- Concrete fixtures used by the closed counterexample and witness
theorems below. -/

/-- A sample repository descriptor. -/
def r0 : RepositoryInfo :=
  { fullName := "octo/demo", branch := "main", language := "", description := "" }

/-- The default `ContextManager` configuration. -/
def cfg0 : CtxConfig := {}

/-- A generic user message fixture. -/
def msg1 : Message := { role := "user", content := "m", tokenCount := 1 }

/-- A conversation holding exactly 7 messages: one compression candidate. -/
def conv7 : Conversation :=
  { repository := r0, messages := List.replicate 7 msg1, summary := "",
    fileReferences := [], tokenCount := 7, totalMessages := 7, summaryCount := 0 }

/-- A conversation holding exactly 8 messages: two compression candidates. -/
def conv8 : Conversation :=
  { repository := r0, messages := List.replicate 8 msg1, summary := "",
    fileReferences := [], tokenCount := 8, totalMessages := 8, summaryCount := 0 }

/-- An append whose external resolution results are all trivial. -/
def inp0 : AppendInput :=
  { role := "user", content := "hi", enhancedContent := "hi", refPaths := [],
    summary := "" }

/-- A `ContextManager` state with no active conversation. -/
def stx : CtxState := { conversations := [], currentConversationId := none }

/-- A `ContextManager` state with one active conversation. -/
def sty : CtxState :=
  { conversations := [("k1", ContextManager.createConversation r0)],
    currentConversationId := some "k1" }

/-- An empty `ConversationManager` conversation. -/
def convA : CMConversation :=
  { id := "c1", title := "新对话 t", messages := [], createdAt := 0, updatedAt := 0 }

/-- A `ConversationManager` state with one current conversation. -/
def cm8 : CMState :=
  { currentConversationId := some "c1", conversations := [("c1", convA)] }

/-- A chat window about to send a message with an unresolvable reference. -/
def st4 : ChatState :=
  { isResponding := false, hasAbortController := false, modelSelected := true,
    inputValue := "What does @missing/file.js do?", uploadedImages := [],
    cm := cm8, messageHistory := [], transportCalls := 0 }

/-- A chat window with a streaming exchange in flight. -/
def st6 : ChatState :=
  { st4 with isResponding := true, hasAbortController := true }

/-- A chat window mid-stream with new input already typed. -/
def st7 : ChatState :=
  { st4 with isResponding := true, hasAbortController := true,
             inputValue := "next question" }

/-- Conversations with distinct update times for the deletion fixture. -/
def convB : CMConversation :=
  { id := "c2", title := "b", messages := [], createdAt := 0, updatedAt := 1 }

/-- See `convB`. -/
def convC : CMConversation :=
  { id := "c3", title := "c", messages := [], createdAt := 0, updatedAt := 5 }

/-- See `convB`. -/
def convD : CMConversation :=
  { id := "c4", title := "d", messages := [], createdAt := 0, updatedAt := 9 }

/-- A `ConversationManager` state with three conversations, the current one
being the least recently updated. -/
def st10 : CMState :=
  { currentConversationId := some "c2",
    conversations := [("c2", convB), ("c3", convC), ("c4", convD)] }

/-- The branch-fallback fetch oracle: 404 everywhere except the
master-branch raw URL of `o/r/f.js`. -/
def fetch5 : String → FetchResult := fun url =>
  if url = rawUrl "o" "r" "master" "f.js" then .ok "X" else .status 404

/-- A contents-API oracle that 404s every URL. -/
def gfetch5 : String → GHResponse := fun _ => .status 404

/-- A `GitHubAPI` state pointed at branch `main` with an empty cache. -/
def gst5 : GHState :=
  { repoInfo := { owner := "o", repo := "r", branch := "main" }, fileCache := [] }


/-- Folding addition from an initial accumulator is the accumulator plus
the list sum (JS `reduce((t, m) => t + m, 0)`). -/
theorem foldl_add_eq_sum (l : List Nat) (n : Nat) : l.foldl (· + ·) n = n + l.sum := by
  induction l generalizing n with
  | nil => simp
  | cons a t ih => simp [ih, Nat.add_assoc]

/-- Compression either leaves the conversation untouched (empty candidate
set) or recomputes the total as the exact sum of the remaining message
token counts while incrementing the summary counter. -/
theorem compressContext_cases (conv : Conversation) (s : String) :
    ContextManager.compressContext conv s = conv ∨
      ((ContextManager.compressContext conv s).tokenCount =
          sumTokens (ContextManager.compressContext conv s) ∧
        (ContextManager.compressContext conv s).summaryCount =
          conv.summaryCount + 1) := by
  simp only [ContextManager.compressContext]
  split
  · left; rfl
  · right
    refine ⟨?_, rfl⟩
    simp [sumTokens, foldl_add_eq_sum, Nat.add_assoc]

/-- Unfolding of the first component of `appendToConversation`. -/
theorem appendToConversation_fst (cfg : CtxConfig) (conv : Conversation)
    (inp : AppendInput) :
    (ContextManager.appendToConversation cfg conv inp).1 =
      if ContextManager.shouldCompressContext cfg
          (ContextManager.pushedConversation conv inp) then
        ContextManager.compressContext
          (ContextManager.pushedConversation conv inp) inp.summary
      else ContextManager.pushedConversation conv inp := by
  simp only [ContextManager.appendToConversation]
  split <;> rfl

/-- The token-count discrepancy invariant is preserved by one append: the
conversation total equals the sum of the message token counts, plus the
system-prompt estimate for as long as no effective compression has
happened (`summaryCount = 0`). -/
theorem appendToConversation_invariant (cfg : CtxConfig) (E : Nat)
    (inp : AppendInput) (conv : Conversation)
    (h : conv.tokenCount = sumTokens conv + (if conv.summaryCount = 0 then E else 0)) :
    (ContextManager.appendToConversation cfg conv inp).1.tokenCount =
      sumTokens (ContextManager.appendToConversation cfg conv inp).1 +
        (if (ContextManager.appendToConversation cfg conv inp).1.summaryCount = 0
         then E else 0) := by
  have hpush : (ContextManager.pushedConversation conv inp).tokenCount =
      sumTokens (ContextManager.pushedConversation conv inp) +
        (if (ContextManager.pushedConversation conv inp).summaryCount = 0
         then E else 0) := by
    by_cases hz : conv.summaryCount = 0 <;>
      simp [ContextManager.pushedConversation, sumTokens, hz] at h ⊢ <;>
      omega
  rw [appendToConversation_fst]
  by_cases hb : ContextManager.shouldCompressContext cfg
      (ContextManager.pushedConversation conv inp)
  · simp only [hb, if_true]
    rcases compressContext_cases (ContextManager.pushedConversation conv inp)
        inp.summary with heq | ⟨ht, hs⟩
    · rw [heq]; exact hpush
    · rw [ht, hs]; simp
  · simp only [hb, if_false]; exact hpush

set_option maxRecDepth 4096 in
/-- C1 counterexample: for a freshly created conversation the claimed
invariant `tokenCount = sum of message tokenCount fields` already fails —
the initial system message carries `tokenCount: 0` while the conversation
total holds the estimate of the system prompt. -/
theorem C1_counterexample :
    (ContextManager.createConversation r0).tokenCount ≠
      sumTokens (ContextManager.createConversation r0) := by
  decide

/-- C1 (amended): after any sequence of appends, the conversation total
equals the sum of the message `tokenCount` fields plus the system-prompt
estimate while no effective compression has run (`summaryCount = 0`), and
equals the sum exactly afterwards.  The originally claimed plain equality
holds only after the first effective compression, because
`addSystemMessage` gives the initial system message a `tokenCount` field
of `0` while adding its estimate to the conversation total. -/
theorem C1_amended (cfg : CtxConfig) (r : RepositoryInfo) (l : List AppendInput) :
    (runAppends cfg (ContextManager.createConversation r) l).tokenCount =
      sumTokens (runAppends cfg (ContextManager.createConversation r) l) +
        (if (runAppends cfg (ContextManager.createConversation r) l).summaryCount = 0
         then estimateTokenCount (buildSystemPrompt r) else 0) := by
  have general : ∀ (l : List AppendInput) (conv : Conversation),
      conv.tokenCount = sumTokens conv +
        (if conv.summaryCount = 0 then estimateTokenCount (buildSystemPrompt r) else 0) →
      (runAppends cfg conv l).tokenCount = sumTokens (runAppends cfg conv l) +
        (if (runAppends cfg conv l).summaryCount = 0
         then estimateTokenCount (buildSystemPrompt r) else 0) := by
    intro l
    induction l with
    | nil => intro conv h; exact h
    | cons inp t ih =>
        intro conv h
        exact ih _ (appendToConversation_invariant cfg _ inp conv h)
  apply general
  simp [ContextManager.createConversation, ContextManager.addSystemMessage, sumTokens]

/-- C2 counterexample: a conversation with exactly 7 messages has one
compression candidate (a non-empty candidate set), yet compression does
not strictly decrease the message count — the single candidate is
replaced one-for-one by the summary message. -/
theorem C2_counterexample :
    (conv7.messages.take (conv7.messages.length - 5)).drop 1 ≠ [] ∧
      ¬ (ContextManager.compressContext conv7 "sum").messages.length <
          conv7.messages.length := by
  decide

/-- C2 (amended): compression keeps the first message and the most recent
5 messages unchanged and rewrites the list to exactly
`[first, summary, ...last 5]`; it is a no-op when the candidate set
(messages strictly between the first and the last 5) is empty; the
message count strictly decreases exactly when there are at least 2
candidates, and stays equal when there is exactly 1 candidate. -/
theorem C2_amended (conv : Conversation) (s : String) :
    ((conv.messages.take (conv.messages.length - 5)).drop 1 = [] →
      ContextManager.compressContext conv s = conv) ∧
    ((conv.messages.take (conv.messages.length - 5)).drop 1 ≠ [] →
      (ContextManager.compressContext conv s).messages =
        conv.messages.take 1 ++
          [{ role := "system", content := "--- 对话摘要 ---\n" ++ s,
             tokenCount := estimateTokenCount s, isSummary := true }] ++
          conv.messages.drop (conv.messages.length - 5) ∧
      (ContextManager.compressContext conv s).messages.length = 7 ∧
      conv.messages.length =
        6 + ((conv.messages.take (conv.messages.length - 5)).drop 1).length ∧
      (2 ≤ ((conv.messages.take (conv.messages.length - 5)).drop 1).length →
        (ContextManager.compressContext conv s).messages.length <
          conv.messages.length) ∧
      (((conv.messages.take (conv.messages.length - 5)).drop 1).length = 1 →
        (ContextManager.compressContext conv s).messages.length =
          conv.messages.length)) := by
  constructor
  · intro h
    have h0 : ((conv.messages.take (conv.messages.length - 5)).drop 1).length = 0 := by
      rw [h]; rfl
    simp only [ContextManager.compressContext]
    rw [if_pos h0]
  · intro h
    have hne : ¬ ((conv.messages.take (conv.messages.length - 5)).drop 1).length = 0 := by
      intro h0
      exact h (List.length_eq_zero.mp h0)
    have hn : 7 ≤ conv.messages.length := by
      have := hne
      simp only [List.length_drop, List.length_take] at this
      omega
    have hmsg : (ContextManager.compressContext conv s).messages =
        conv.messages.take 1 ++
          [{ role := "system", content := "--- 对话摘要 ---\n" ++ s,
             tokenCount := estimateTokenCount s, isSummary := true }] ++
          conv.messages.drop (conv.messages.length - 5) := by
      simp only [ContextManager.compressContext]
      rw [if_neg hne]
    have hlen : (ContextManager.compressContext conv s).messages.length = 7 := by
      rw [hmsg]
      simp only [List.length_append, List.length_take, List.length_drop,
        List.length_cons, List.length_nil]
      omega
    have hcand : conv.messages.length =
        6 + ((conv.messages.take (conv.messages.length - 5)).drop 1).length := by
      simp only [List.length_drop, List.length_take]
      omega
    refine ⟨hmsg, hlen, hcand, ?_, ?_⟩
    · intro h2
      rw [hlen]
      omega
    · intro h1
      rw [hlen]
      omega

/-- C2 witness: with 8 messages (two candidates) compression strictly
decreases the message count. -/
theorem C2_witness :
    (ContextManager.compressContext conv8 "sum").messages.length <
      conv8.messages.length :=
  ((C2_amended conv8 "sum").2 (by decide)).2.2.2.1 (by decide)

/-- Running the scan worker on an empty list yields no matches. -/
theorem scanRefsGo_nil (fuel i : Nat) : scanRefsGo fuel [] i = [] := by
  cases fuel <;> rfl

/-- Soundness of the reference scan: every reported match consists of an
`@` followed by its non-empty captured path, and the matched substring
really occurs in the scanned text at the reported character offset. -/
theorem scanRefsGo_sound (full : List Char) :
    ∀ (fuel : Nat) (cs : List Char) (i : Nat), full.drop i = cs →
      ∀ m ∈ scanRefsGo fuel cs i,
        m.matched = '@' :: m.path ∧ m.path ≠ [] ∧
          (full.drop m.index).take m.matched.length = m.matched := by
  intro fuel
  induction fuel with
  | zero => intro cs i _ m hm; simp [scanRefsGo] at hm
  | succ fuel ih =>
      intro cs i hdrop m hm
      cases cs with
      | nil => simp [scanRefsGo] at hm
      | cons c rest =>
          have hdrop1 : full.drop (i + 1) = rest := by
            have h1 := List.drop_drop 1 i full
            rw [hdrop] at h1
            simpa using h1.symm
          simp only [scanRefsGo] at hm
          by_cases hc : c = '@'
          · rw [if_pos hc] at hm
            by_cases hemp : (rest.takeWhile (fun ch => !isJsSpace ch)).isEmpty
            · rw [if_pos hemp] at hm
              exact ih rest (i + 1) hdrop1 m hm
            · rw [if_neg hemp] at hm
              rcases List.mem_cons.mp hm with hm0 | hmrest
              · subst hm0
                refine ⟨rfl, ?_, ?_⟩
                · intro hnil
                  apply hemp
                  have htok : rest.takeWhile (fun ch => !isJsSpace ch) = [] := hnil
                  simp [htok]
                · rw [hdrop, hc]
                  have hpre :=
                    List.prefix_iff_eq_take.mp
                      (List.takeWhile_prefix (l := rest) (fun ch => !isJsSpace ch))
                  show (('@' :: rest).take
                      ('@' :: rest.takeWhile (fun ch => !isJsSpace ch)).length) =
                    '@' :: rest.takeWhile (fun ch => !isJsSpace ch)
                  simp only [List.length_cons, List.take_succ_cons]
                  exact congrArg (fun l => '@' :: l) hpre.symm
              · have hdrop2 : full.drop (i + 1 +
                    (rest.takeWhile (fun ch => !isJsSpace ch)).length) =
                    rest.drop (rest.takeWhile (fun ch => !isJsSpace ch)).length := by
                  have h2 := List.drop_drop
                    (rest.takeWhile (fun ch => !isJsSpace ch)).length (i + 1) full
                  rw [hdrop1] at h2
                  exact h2.symm
                exact ih _ _ hdrop2 m hmrest
          · rw [if_neg hc] at hm
            exact ih rest (i + 1) hdrop1 m hm

/-- Instantiated soundness for `scanRefs`. -/
theorem scanRefs_sound (cs : List Char) (m : RefMatch) (hm : m ∈ scanRefs cs 0) :
    m.matched = '@' :: m.path ∧ m.path ≠ [] ∧
      (cs.drop m.index).take m.matched.length = m.matched :=
  scanRefsGo_sound cs cs.length cs 0 (by simp) m hm

/-- A text whose only `@` is a trailing one (no following character at
all) produces no matches, for any fuel. -/
theorem scanRefsGo_trailing : ∀ (t : List Char), (∀ c ∈ t, c ≠ '@') →
    ∀ (fuel i : Nat), scanRefsGo fuel (t ++ ['@']) i = [] := by
  intro t
  induction t with
  | nil =>
      intro _ fuel i
      cases fuel with
      | zero => rfl
      | succ fuel => simp [scanRefsGo, scanRefsGo_nil]
  | cons c rest ih =>
      intro h fuel i
      cases fuel with
      | zero => rfl
      | succ fuel =>
          have hc : c ≠ '@' := h c (by simp)
          simp only [List.cons_append, scanRefsGo]
          rw [if_neg hc]
          exact ih (fun x hx => h x (by simp [hx])) fuel (i + 1)

/-- Every entry returned by the parse originates in a scan match and its
path was found in the flat file list. -/
theorem parseFileReferences_mem (L : List (List Char)) (msg : List Char)
    (p : ParsedRef) (hp : p ∈ FileReferenceManager.parseFileReferences L msg) :
    ∃ m ∈ scanRefs msg 0, p.path = m.path ∧ p.matched = m.matched ∧
      p.index = m.index ∧ p.path ∈ L := by
  unfold FileReferenceManager.parseFileReferences at hp
  rcases List.mem_filterMap.mp hp with ⟨m, hm, hf⟩
  cases hfind : L.find? (fun f => f == m.path) with
  | none =>
      rw [hfind] at hf
      exact absurd hf (by simp)
  | some f =>
      rw [hfind] at hf
      have hpe :
          ({ path := m.path, file := f, matched := m.matched,
             index := m.index } : ParsedRef) = p :=
        Option.some.inj hf
      have hfeq : f = m.path := by
        have := List.find?_some hfind
        simpa using this
      have hfL : f ∈ L := List.mem_of_find?_eq_some hfind
      refine ⟨m, hm, ?_, ?_, ?_, ?_⟩ <;> rw [← hpe]
      show m.path ∈ L
      rw [← hfeq]
      exact hfL

/-- Helper for the parse-count lemma: if every match in a list has a path
found in `L`, the filter keeps every entry. -/
theorem filterMap_find_length (L : List (List Char)) :
    ∀ ms : List RefMatch, (∀ m ∈ ms, m.path ∈ L) →
      (ms.filterMap fun m =>
        match L.find? (fun f => f == m.path) with
        | some f =>
            some ({ path := m.path, file := f, matched := m.matched,
                    index := m.index } : ParsedRef)
        | none => none).length = ms.length := by
  intro ms hms
  induction ms with
  | nil => rfl
  | cons m t ih =>
      have hmem : m.path ∈ L := hms m (by simp)
      have hsome : ∃ f, L.find? (fun f => f == m.path) = some f := by
        have := (List.find?_isSome (p := fun f => f == m.path)).mpr
          ⟨m.path, hmem, by simp⟩
        exact Option.isSome_iff_exists.mp this
      rcases hsome with ⟨f, hf⟩
      rw [List.filterMap_cons, hf]
      simpa using ih (fun x hx => hms x (List.mem_cons_of_mem _ hx))

/-- When every scanned path is present in the flat file list, the parse
keeps all matches (one entry per well-formed token). -/
theorem parseFileReferences_length (L : List (List Char)) (msg : List Char)
    (hall : ∀ m ∈ scanRefs msg 0, m.path ∈ L) :
    (FileReferenceManager.parseFileReferences L msg).length =
      (scanRefs msg 0).length := by
  unfold FileReferenceManager.parseFileReferences
  exact filterMap_find_length L (scanRefs msg 0) hall

/-- C3 counterexample: the text `see @foo.js` contains exactly one
well-formed `@path` token, yet with a loaded file list that does not
contain `foo.js` the parse reports zero entries — `parseFileReferences`
does validate paths against the flat file list, dropping references to
paths absent from it. -/
theorem C3_counterexample :
    (scanRefs "see @foo.js".toList 0).length = 1 ∧
      FileReferenceManager.parseFileReferences [] "see @foo.js".toList = [] := by
  constructor
  · decide
  · decide

/-- C3 (amended): every entry reported by `parseFileReferences` is a
well-formed token whose path occurs in the loaded flat file list, carries
the exact matched substring `@` + path at its correct character offset;
the count equals the number of well-formed tokens exactly when every
scanned path is present in the file list; and a lone trailing `@` yields
zero entries. -/
theorem C3_amended (L : List (List Char)) (msg : List Char) :
    (∀ p ∈ FileReferenceManager.parseFileReferences L msg,
        p.path ∈ L ∧ p.matched = '@' :: p.path ∧ p.path ≠ [] ∧
          (msg.drop p.index).take p.matched.length = p.matched) ∧
    ((∀ m ∈ scanRefs msg 0, m.path ∈ L) →
        (FileReferenceManager.parseFileReferences L msg).length =
          (scanRefs msg 0).length) ∧
    (∀ t : List Char, (∀ c ∈ t, c ≠ '@') →
        FileReferenceManager.parseFileReferences L (t ++ ['@']) = []) := by
  refine ⟨?_, parseFileReferences_length L msg, ?_⟩
  · intro p hp
    rcases parseFileReferences_mem L msg p hp with ⟨m, hm, hpath, hmatched, hidx, hL⟩
    rcases scanRefs_sound msg m hm with ⟨hm1, hm2, hm3⟩
    refine ⟨hL, ?_, ?_, ?_⟩
    · rw [hmatched, hpath]; exact hm1
    · rw [hpath]; exact hm2
    · rw [hmatched, hidx]; exact hm3
  · intro t ht
    unfold FileReferenceManager.parseFileReferences
    rw [show scanRefs (t ++ ['@']) 0 =
        scanRefsGo (t ++ ['@']).length (t ++ ['@']) 0 from rfl]
    rw [scanRefsGo_trailing t ht]
    rfl

/-- C3 witness: on a file list containing the referenced path, the parse
reports exactly the one well-formed token. -/
theorem C3_witness :
    (FileReferenceManager.parseFileReferences ["foo.js".toList]
        "see @foo.js".toList).length = (scanRefs "see @foo.js".toList 0).length :=
  (C3_amended ["foo.js".toList] "see @foo.js".toList).2.1 (by decide)

/-- When every reference in a message fails to resolve, the reference
processing leaves the message unchanged. -/
theorem processFileReferences_allFail (resolver : List Char → Option (List Char))
    (message : List Char)
    (h : ∀ m ∈ scanRefs message 0, resolver m.path = none) :
    ChatWindow.processFileReferences resolver message = message := by
  unfold ChatWindow.processFileReferences
  have general : ∀ (ms : List RefMatch) (acc : List Char),
      (∀ m ∈ ms, resolver m.path = none) →
      (ms.foldl (fun processed m =>
        match resolver m.path with
        | some fileContent =>
            replaceFirst processed m.matched
              (ChatWindow.fileReplacement m.path fileContent)
        | none => processed) acc) = acc := by
    intro ms
    induction ms with
    | nil => intro acc _; rfl
    | cons m t ih =>
        intro acc hall
        rw [List.foldl_cons, hall m (by simp)]
        exact ih acc (fun x hx => hall x (List.mem_cons_of_mem _ hx))
  exact general _ _ h

/-- Updating a key in the association map makes it the value looked up. -/
theorem mapGet?_mapSet_self {α : Type} (l : List (String × α)) (k : String) (v : α) :
    mapGet? (mapSet l k v) k = some v := by
  induction l with
  | nil => simp [mapSet, mapGet?]
  | cons p rest ih =>
      obtain ⟨k0, v0⟩ := p
      by_cases hk : k0 = k
      · simp [mapSet, mapGet?, hk]
      · simp [mapSet, mapGet?, hk, ih]

/-- What `ConversationManager.addMessage` does to the current conversation
when one exists: the message is appended, and the title is set by the
first-user-message rule. -/
theorem cmAddMessage_current (st : CMState) (cid : String) (conv : CMConversation)
    (role content msgId : String) (now : Nat) (images : List String)
    (hcid : st.currentConversationId = some cid)
    (hconv : mapGet? st.conversations cid = some conv) :
    ∃ c2,
      ConversationManager.getCurrentConversation
          (ConversationManager.addMessage st role content msgId now images).2 =
        some c2 ∧
      c2.messages = conv.messages ++
        [({ id := msgId, role := role, content := content, timestamp := now,
            images := images } : CMMessage)] ∧
      ((role == "user" &&
          ((conv.messages ++
            [({ id := msgId, role := role, content := content, timestamp := now,
                images := images } : CMMessage)]).filter
              (fun m => m.role == "user")).length == 1) = true →
        c2.title = content.take 20 ++ (if content.length > 20 then "..." else "")) ∧
      ((role == "user" &&
          ((conv.messages ++
            [({ id := msgId, role := role, content := content, timestamp := now,
                images := images } : CMMessage)]).filter
              (fun m => m.role == "user")).length == 1) = false →
        c2.title = conv.title) := by
  unfold ConversationManager.addMessage ConversationManager.getCurrentConversation
  rw [hcid]
  dsimp only
  rw [hconv]
  dsimp only
  simp only [mapGet?_mapSet_self]
  split
  · refine ⟨_, rfl, rfl, fun _ => rfl, fun hfalse => ?_⟩
    rename_i hcond
    rw [hcond] at hfalse
    cases hfalse
  · refine ⟨_, rfl, rfl, fun htrue => ?_, fun _ => rfl⟩
    rename_i hcond
    exact absurd htrue hcond

/-- C4 counterexample: in the message `@a/b @a`, when `a` resolves but
`a/b` does not, the replacement for `@a` targets the first occurrence of
that text — which sits inside the unresolvable token `@a/b` — so the
enhanced message no longer contains the literal substring `@a/b`. -/
theorem C4_counterexample :
    containsSub "@a/b @a".toList "@a/b".toList = true ∧
      (fun p => if p = "a".toList then some "C".toList else none)
        ("a/b".toList) = none ∧
      containsSub
        (ChatWindow.processFileReferences
          (fun p => if p = "a".toList then some "C".toList else none)
          "@a/b @a".toList)
        "@a/b".toList = false := by
  refine ⟨by decide, by decide, by decide⟩

/-- C4 (amended): a failed resolution never aborts the send — the user
message is still appended to the conversation and to the history with no
error entry, and when no reference in the message resolves (in
particular when the message contains only unresolvable references such as
`@missing/file.js`) the enhanced message passed to the transport is the
original text with every literal `@path` token intact.  A resolvable
reference elsewhere in the message can, however, destroy an unresolvable
token: replacement targets the first occurrence of the resolved text. -/
theorem C4_amended (resolver : List Char → Option (List Char)) (st : ChatState)
    (conv : CMConversation) (cid msgId : String) (now : Nat)
    (hresp : st.isResponding = false)
    (hmodel : st.modelSelected = true)
    (hinput : ¬ jsTrim st.inputValue = "")
    (hcid : st.cm.currentConversationId = some cid)
    (hconv : mapGet? st.cm.conversations cid = some conv)
    (hfail : ∀ m ∈ scanRefs (jsTrim st.inputValue).toList 0, resolver m.path = none) :
    ChatWindow.processFileReferences resolver (jsTrim st.inputValue).toList =
      (jsTrim st.inputValue).toList ∧
    (∃ c2, ConversationManager.getCurrentConversation
        (ChatWindow.sendMessageStart st msgId now).cm = some c2 ∧
      c2.messages = conv.messages ++
        [({ id := msgId, role := "user", content := jsTrim st.inputValue,
            timestamp := now, images := st.uploadedImages } : CMMessage)]) ∧
    (ChatWindow.sendMessageStart st msgId now).messageHistory =
      st.messageHistory ++ [("user", jsTrim st.inputValue)] := by
  refine ⟨processFileReferences_allFail resolver _ hfail, ?_, ?_⟩
  · rcases cmAddMessage_current st.cm cid conv "user" (jsTrim st.inputValue)
        msgId now st.uploadedImages hcid hconv with ⟨c2, hc2, hmsgs, _, _⟩
    refine ⟨c2, ?_, hmsgs⟩
    simp only [ChatWindow.sendMessageStart, ChatWindow.addMessage]
    rw [if_neg hinput]
    simp only [hresp, hmodel, Bool.not_true, Bool.false_eq_true, if_false]
    exact hc2
  · simp only [ChatWindow.sendMessageStart, ChatWindow.addMessage]
    rw [if_neg hinput]
    simp only [hresp, hmodel, Bool.not_true, Bool.false_eq_true, if_false]

/-- C4 witness: a send whose only reference resolves to nothing at all
still appends the user message, records no error, and forwards the text
unchanged. -/
theorem C4_witness :
    ChatWindow.processFileReferences (fun _ => none)
        (jsTrim st4.inputValue).toList = (jsTrim st4.inputValue).toList ∧
      (∃ c2, ConversationManager.getCurrentConversation
          (ChatWindow.sendMessageStart st4 "m1" 7).cm = some c2 ∧
        c2.messages = convA.messages ++
          [({ id := "m1", role := "user", content := jsTrim st4.inputValue,
              timestamp := 7, images := st4.uploadedImages } : CMMessage)]) ∧
      (ChatWindow.sendMessageStart st4 "m1" 7).messageHistory =
        st4.messageHistory ++ [("user", jsTrim st4.inputValue)] :=
  C4_amended (fun _ => none) st4 convA "c1" "m1" 7 (by decide) (by decide)
    (by decide) (by decide) (by decide) (fun m _ => rfl)

/-- C6: while a streaming exchange is in flight (`isResponding`), a second
send attempt on the window's conversation is rejected with the state
completely unchanged — no user message appended, no transport call made,
nothing queued. -/
theorem C6_theorem (st : ChatState) (msgId : String) (now : Nat)
    (h : st.isResponding = true) :
    ChatWindow.sendMessageStart st msgId now = st := by
  simp only [ChatWindow.sendMessageStart]
  by_cases he : jsTrim st.inputValue = ""
  · rw [if_pos he]
  · rw [if_neg he, h]
    simp

/-- C6 witness: a concrete in-flight window rejects a second send. -/
theorem C6_witness : ChatWindow.sendMessageStart st6 "m2" 9 = st6 :=
  C6_theorem st6 "m2" 9 (by decide)

/-- Observing the abort signal after `k` reads finalizes with the chunk
prefix accumulated so far plus the cancellation marker. -/
theorem streamRun_cancel (chunks : List String) :
    ∀ (k : Nat) (acc : String), k ≤ chunks.length →
      StreamHandler.streamRun (chunks.map StreamRead.chunk) (some k) acc =
        .finalized (joinAll acc (chunks.take k) ++ cancelledMarker) := by
  induction chunks with
  | nil =>
      intro k acc hk
      have hz : k = 0 := Nat.le_zero.mp hk
      subst hz
      simp [StreamHandler.streamRun, joinAll]
  | cons c rest ih =>
      intro k acc hk
      cases k with
      | zero => simp [StreamHandler.streamRun, joinAll]
      | succ k =>
          rw [List.map_cons, StreamHandler.streamRun]
          rw [if_neg (by simp)]
          have hmap : (some (k + 1)).map (· - 1) = some k := by simp
          simp only [hmap]
          rw [ih k (acc ++ c) (by simpa using hk)]
          rfl

/-- Length of the accumulated stream buffer. -/
theorem joinAll_length (l : List String) : ∀ acc : String,
    (joinAll acc l).length = acc.length + (l.map String.length).sum := by
  induction l with
  | nil => intro acc; simp [joinAll]
  | cons c t ih =>
      intro acc
      show (joinAll (acc ++ c) t).length = _
      rw [ih]
      simp [Nat.add_assoc]

/-- A buffer that accumulated at least one non-empty chunk is non-empty. -/
theorem joinAll_ne_empty (l : List String) (c : String) (hc : c ∈ l)
    (hcne : c ≠ "") : joinAll "" l ≠ "" := by
  intro h
  apply hcne
  have hlen : (joinAll "" l).length = 0 := by rw [h]; rfl
  rw [joinAll_length] at hlen
  have hle : c.length ≤ (l.map String.length).sum :=
    List.single_le_sum (fun _ _ => Nat.zero_le _) _ (List.mem_map_of_mem _ hc)
  have h0 : ("" : String).length = 0 := rfl
  have hc0 : c.length = 0 := by omega
  obtain ⟨data⟩ := c
  have hdata : data = [] := List.length_eq_zero.mp hc0
  rw [hdata]

/-- C7: cancelling an in-flight send after at least one non-empty chunk
arrived makes the stream loop finalize with the non-empty partial buffer
plus the explicit cancellation marker, `finalizeStreamingMessage` persists
that partial assistant message, and `cancelResponse` drops the
response lock so that a send started immediately afterwards proceeds to
the transport. -/
theorem C7_theorem (chunks : List String) (k : Nat) (st : ChatState)
    (msgId : String) (now : Nat) (c : String)
    (_hk1 : 1 ≤ k) (hk2 : k ≤ chunks.length)
    (hc : c ∈ chunks.take k) (hcne : c ≠ "")
    (hctrl : st.hasAbortController = true)
    (hmodel : st.modelSelected = true)
    (hinput : ¬ jsTrim st.inputValue = "") :
    StreamHandler.streamRun (chunks.map StreamRead.chunk) (some k) "" =
      .finalized (joinAll "" (chunks.take k) ++ cancelledMarker) ∧
    joinAll "" (chunks.take k) ≠ "" ∧
    (∀ st2 : ChatState,
      (StreamHandler.finalizeStreamingMessage st2
          (joinAll "" (chunks.take k) ++ cancelledMarker) msgId now).messageHistory =
        st2.messageHistory ++
          [("assistant", joinAll "" (chunks.take k) ++ cancelledMarker)]) ∧
    (ChatWindow.cancelResponse st).isResponding = false ∧
    (ChatWindow.sendMessageStart (ChatWindow.cancelResponse st) msgId
        now).transportCalls = (ChatWindow.cancelResponse st).transportCalls + 1 := by
  refine ⟨streamRun_cancel chunks k "" hk2, joinAll_ne_empty _ c hc hcne,
    fun st2 => rfl, ?_, ?_⟩
  · simp [ChatWindow.cancelResponse, hctrl]
  · simp only [ChatWindow.cancelResponse, hctrl, if_true]
    simp only [ChatWindow.sendMessageStart, ChatWindow.addMessage]
    rw [if_neg hinput]
    simp [hmodel]

/-- C7 witness: one chunk `Hello` arrived, then cancellation. -/
theorem C7_witness :
    StreamHandler.streamRun (["Hello", " wor"].map StreamRead.chunk) (some 1) "" =
      .finalized (joinAll "" (["Hello", " wor"].take 1) ++ cancelledMarker) ∧
    joinAll "" (["Hello", " wor"].take 1) ≠ "" ∧
    (∀ st2 : ChatState,
      (StreamHandler.finalizeStreamingMessage st2
          (joinAll "" (["Hello", " wor"].take 1) ++ cancelledMarker) "m3" 11).messageHistory =
        st2.messageHistory ++
          [("assistant", joinAll "" (["Hello", " wor"].take 1) ++ cancelledMarker)]) ∧
    (ChatWindow.cancelResponse st7).isResponding = false ∧
    (ChatWindow.sendMessageStart (ChatWindow.cancelResponse st7) "m3"
        11).transportCalls = (ChatWindow.cancelResponse st7).transportCalls + 1 :=
  C7_theorem ["Hello", " wor"] 1 st7 "m3" 11 "Hello" (by decide) (by decide)
    (by decide) (by decide) (by decide) (by decide) (by decide)

/-- C5 counterexample: with the requested branch `main` 404ing and
`master` holding content `X`, the caching resolver
(`GitHubAPI.getFileContent`) performs no branch fallback and fails
outright instead of returning the master content, while the
branch-fallback resolver (`ChatWindow.fetchFileDirectly`) returns the
master content but keeps no cache — every resolution, including a repeat
of the same one, performs network fetches (its fetched-URL list is never
empty), so a repeat resolution is not a cache hit. -/
theorem C5_counterexample :
    (GitHubAPI.getFileContent gst5 gfetch5 "f.js").1 =
      .error "GitHub API error: 404" ∧
    ChatWindow.fetchFileDirectly fetch5
        { owner := "o", repo := "r", branch := "main" } "f.js" =
      (.ok "X", [rawUrl "o" "r" "main" "f.js", rawUrl "o" "r" "master" "f.js"]) ∧
    (ChatWindow.fetchFileDirectly fetch5
        { owner := "o", repo := "r", branch := "main" } "f.js").2 ≠ [] := by
  refine ⟨by decide, by decide, by decide⟩

/-- C5 (amended): when the fetch for the requested branch `main` 404s and
the fallback fetch for `master` succeeds, the direct fetchers
(`fetchFileDirectly`, `fetchFileFromGitHub`) return the master-branch
content — but nothing is cached under any key: the direct fetchers keep
no cache at all (both network fetches are performed on each resolution),
and the caching `GitHubAPI.getFileContent` never reaches `master` — it
throws `GitHub API error: 404` on the requested branch without fallback. -/
theorem C5_amended (fetch : String → FetchResult) (gfetch : String → GHResponse)
    (gst : GHState) (owner repo path c : String)
    (h404 : fetch (rawUrl owner repo "main" path) = .status 404)
    (hok : fetch (rawUrl owner repo "master" path) = .ok c)
    (hrepo : gst.repoInfo = { owner := owner, repo := repo, branch := "main" })
    (hmiss : mapGet? gst.fileCache
      (owner ++ "/" ++ repo ++ "/" ++ "main" ++ "/" ++ path) = none)
    (hg404 : gfetch (GitHubAPI.contentsUrl owner repo path "main") = .status 404) :
    ChatWindow.fetchFileDirectly fetch
        { owner := owner, repo := repo, branch := "main" } path =
      (.ok c, [rawUrl owner repo "main" path, rawUrl owner repo "master" path]) ∧
    (GitHubChatAssistant.fetchFileFromGitHub fetch owner repo "main" path).1 =
      .ok c ∧
    (GitHubAPI.getFileContent gst gfetch path).1 =
      .error "GitHub API error: 404" := by
  refine ⟨?_, ?_, ?_⟩
  · simp only [ChatWindow.fetchFileDirectly]
    rw [show dedupFirst ["main", "main", "master"] = ["main", "master"] from by decide]
    simp only [ChatWindow.tryBranches, h404, hok]
  · simp [GitHubChatAssistant.fetchFileFromGitHub,
      GitHubChatAssistant.tryBranchesRaw, h404, hok]
  · simp only [GitHubAPI.getFileContent, hrepo]
    rw [hmiss, hg404]
    dsimp only
    rw [show ("GitHub API error: " ++ toString 404) = "GitHub API error: 404"
      from by decide]

/-- C5 witness: concrete oracles exercising the amended statement. -/
theorem C5_witness :
    ChatWindow.fetchFileDirectly fetch5
        { owner := "o", repo := "r", branch := "main" } "f.js" =
      (.ok "X", [rawUrl "o" "r" "main" "f.js", rawUrl "o" "r" "master" "f.js"]) ∧
    (GitHubChatAssistant.fetchFileFromGitHub fetch5 "o" "r" "main" "f.js").1 =
      .ok "X" ∧
    (GitHubAPI.getFileContent gst5 gfetch5 "f.js").1 =
      .error "GitHub API error: 404" :=
  C5_amended fetch5 gfetch5 gst5 "o" "r" "f.js" "X" (by decide) (by decide)
    (by decide) (by decide) (by decide)

set_option maxRecDepth 8192 in
/-- C8 counterexample: the 44-character first user message
`How do I build this repo from scratch please` yields the title
`How do I build this ...` — `substring(0, 20)` cuts after the space
following `this`, not after `rep` as the claim states (and the content is
not trimmed by the append itself). -/
theorem C8_counterexample :
    (ConversationManager.getCurrentConversation
        (ConversationManager.addMessage cm8 "user"
          "How do I build this repo from scratch please" "m1" 10 []).2).map
        CMConversation.title = some "How do I build this ..." ∧
      ¬ (ConversationManager.getCurrentConversation
          (ConversationManager.addMessage cm8 "user"
            "How do I build this repo from scratch please" "m1" 10 []).2).map
          CMConversation.title = some "How do I build this rep..." := by
  refine ⟨by decide, by decide⟩

/-- C8 (amended): the first user-role message appended to a conversation
sets its display title to the first 20 characters of the message content
followed by an ellipsis when the content is longer than 20 characters
(for the 44-character example this gives `How do I build this ...`); any
user message appended while a user message already exists leaves the
title unchanged. -/
theorem C8_amended (st : CMState) (cid : String) (conv : CMConversation)
    (content msgId : String) (now : Nat) (images : List String)
    (hcid : st.currentConversationId = some cid)
    (hconv : mapGet? st.conversations cid = some conv) :
    ((conv.messages.filter (fun m => m.role == "user")).length = 0 →
      ∃ c2, ConversationManager.getCurrentConversation
          (ConversationManager.addMessage st "user" content msgId now images).2 =
        some c2 ∧
        c2.title = content.take 20 ++ (if content.length > 20 then "..." else "")) ∧
    (1 ≤ (conv.messages.filter (fun m => m.role == "user")).length →
      ∃ c2, ConversationManager.getCurrentConversation
          (ConversationManager.addMessage st "user" content msgId now images).2 =
        some c2 ∧ c2.title = conv.title) := by
  rcases cmAddMessage_current st cid conv "user" content msgId now images hcid
      hconv with ⟨c2, hc2, _, htitleT, htitleF⟩
  constructor
  · intro h0
    refine ⟨c2, hc2, htitleT ?_⟩
    simp [List.filter_append, h0]
  · intro h1
    refine ⟨c2, hc2, htitleF ?_⟩
    have hlen : ((conv.messages ++
        [({ id := msgId, role := "user", content := content, timestamp := now,
            images := images } : CMMessage)]).filter
          (fun m => m.role == "user")).length =
        (conv.messages.filter (fun m => m.role == "user")).length + 1 := by
      simp [List.filter_append]
    have hne : ((conv.messages ++
        [({ id := msgId, role := "user", content := content, timestamp := now,
            images := images } : CMMessage)]).filter
          (fun m => m.role == "user")).length ≠ 1 := by
      rw [hlen]; omega
    simp [hne]
    have hpos : (conv.messages.filter (fun m => m.role == "user")) ≠ [] := by
      intro hnil; rw [hnil] at h1; simp at h1
    rcases List.exists_mem_of_ne_nil _ hpos with ⟨x, hx⟩
    rcases List.mem_filter.mp hx with ⟨hx1, hx2⟩
    exact ⟨x, hx1, by simpa using hx2⟩

set_option maxRecDepth 8192 in
/-- C8 witness: the first user message becomes the title. -/
theorem C8_witness :
    ∃ c2, ConversationManager.getCurrentConversation
        (ConversationManager.addMessage cm8 "user" "hi there" "m1" 10 []).2 =
      some c2 ∧
      c2.title = "hi there".take 20 ++
        (if ("hi there" : String).length > 20 then "..." else "") :=
  (C8_amended cm8 "c1" convA "hi there" "m1" 10 [] (by decide) (by decide)).1
    (by decide)

/-- C9 counterexample: with no active conversation, the context-manager
append throws `No active conversation` across the append boundary — the
claim that no error is ever thrown there is false (the state is left
unchanged, so the atomicity half of the claim survives). -/
theorem C9_counterexample :
    ContextManager.addMessage cfg0 stx inp0 =
      (stx, Except.error "No active conversation") := rfl

/-- C9 (amended): the only error the context-manager append ever throws
is `No active conversation`, thrown exactly when no current conversation
exists, and the thrown case returns before any mutation, leaving the
state unchanged; whenever a current conversation exists the append fully
succeeds.  (Reference-resolution failures are absorbed into per-file
error entries before the append, and compression failures are caught
inside `compressContext`, so neither can abort an append.) -/
theorem C9_amended (cfg : CtxConfig) (st : CtxState) (inp : AppendInput) :
    (ContextManager.getCurrentConversation st = none →
      ContextManager.addMessage cfg st inp =
        (st, Except.error "No active conversation")) ∧
    (∀ conv, ContextManager.getCurrentConversation st = some conv →
      ∃ st2 msg, ContextManager.addMessage cfg st inp = (st2, Except.ok msg)) := by
  constructor
  · intro h
    unfold ContextManager.getCurrentConversation at h
    unfold ContextManager.addMessage
    cases hcur : st.currentConversationId with
    | none => rfl
    | some cid =>
        rw [hcur] at h
        dsimp only at h
        dsimp only
        rw [h]
  · intro conv h
    unfold ContextManager.getCurrentConversation at h
    cases hcur : st.currentConversationId with
    | none => rw [hcur] at h; cases h
    | some cid =>
        rw [hcur] at h
        dsimp only at h
        refine ⟨{ st with
                    conversations := mapSet st.conversations cid
                      (ContextManager.appendToConversation cfg conv inp).1 },
          (ContextManager.appendToConversation cfg conv inp).2, ?_⟩
        unfold ContextManager.addMessage
        rw [hcur]
        dsimp only
        rw [h]

/-- C9 witness: with an active conversation the append succeeds. -/
theorem C9_witness :
    ∃ st2 msg, ContextManager.addMessage cfg0 sty inp0 = (st2, Except.ok msg) :=
  (C9_amended cfg0 sty inp0).2 (ContextManager.createConversation r0) rfl

/-- Deleting one key leaves lookups of other keys unchanged. -/
theorem mapGet?_mapDelete_ne {α : Type} (l : List (String × α)) (id k : String)
    (h : k ≠ id) : mapGet? (mapDelete l id) k = mapGet? l k := by
  induction l with
  | nil => rfl
  | cons p rest ih =>
      obtain ⟨k0, v0⟩ := p
      unfold mapDelete at ih ⊢
      rw [List.filter_cons]
      by_cases h0 : k0 = id
      · rw [if_neg (by simp [h0])]
        rw [ih]
        show mapGet? rest k = mapGet? ((k0, v0) :: rest) k
        unfold mapGet?
        rw [if_neg (by rw [h0]; intro he; exact h he.symm)]
        cases rest with
        | nil => rfl
        | cons q qs => rfl
      · rw [if_pos (by simp [h0])]
        unfold mapGet?
        by_cases hk : k0 = k
        · rw [if_pos hk, if_pos hk]
        · rw [if_neg hk, if_neg hk]
          exact ih

/-- With unique keys, a pair in the map is returned by lookup of its key. -/
theorem mapGet?_of_mem_nodup {α : Type} (l : List (String × α)) (k : String)
    (v : α) (hmem : (k, v) ∈ l) (hnd : (l.map Prod.fst).Nodup) :
    mapGet? l k = some v := by
  induction l with
  | nil => cases hmem
  | cons p rest ih =>
      obtain ⟨k0, v0⟩ := p
      simp only [List.map_cons] at hnd
      rcases List.mem_cons.mp hmem with he | hrest
      · obtain ⟨h1, h2⟩ := Prod.mk.inj he
        unfold mapGet?
        rw [if_pos h1.symm, h2]
      · have hk0 : k0 ≠ k := by
          intro he0
          apply (List.nodup_cons.mp hnd).1
          rw [he0]
          exact List.mem_map_of_mem Prod.fst hrest
        unfold mapGet?
        rw [if_neg hk0]
        exact ih hrest (List.nodup_cons.mp hnd).2

/-- C10: deletion keeps the current-conversation pointer valid.  Deleting
an unknown id returns `false` and leaves the state unchanged.  Under the
manager invariants (values carry their keys, keys unique), if the current
id referred to an existing conversation before a deletion, the current id
refers to an existing conversation afterwards; and when the deleted
conversation was the current one, the new current conversation has the
greatest `updatedAt` among the remaining conversations (or is a freshly
created conversation when none remain, the quantifier then being vacuous). -/
theorem C10_theorem (st : CMState) (conversationId freshId dateStr : String)
    (now : Nat) :
    (mapGet? st.conversations conversationId = none →
      ConversationManager.deleteConversation st conversationId freshId dateStr
        now = (false, st)) ∧
    (∀ cid, cmWellFormed st →
      st.currentConversationId = some cid →
      (∃ c0, mapGet? st.conversations cid = some c0) →
      ∃ cid2 c2,
        (ConversationManager.deleteConversation st conversationId freshId dateStr
          now).2.currentConversationId = some cid2 ∧
        mapGet? (ConversationManager.deleteConversation st conversationId freshId
          dateStr now).2.conversations cid2 = some c2 ∧
        (conversationId = cid →
          ∀ p ∈ mapDelete st.conversations conversationId,
            p.2.updatedAt ≤ c2.updatedAt)) := by
  constructor
  · intro h
    unfold ConversationManager.deleteConversation
    rw [h]
  · intro cid hwf hcur hex
    rcases hex with ⟨c0, hc0⟩
    unfold ConversationManager.deleteConversation
    cases hdel : mapGet? st.conversations conversationId with
    | none =>
        dsimp only
        refine ⟨cid, c0, hcur, hc0, ?_⟩
        intro heq
        rw [heq, hc0] at hdel
        cases hdel
    | some cdel =>
        dsimp only
        by_cases hcd : st.currentConversationId = some conversationId
        · rw [if_pos hcd]
          have htrans : ∀ a b c : CMConversation,
              decide (b.updatedAt ≤ a.updatedAt) = true →
              decide (c.updatedAt ≤ b.updatedAt) = true →
              decide (c.updatedAt ≤ a.updatedAt) = true := by
            intro a b c hab hbc
            simp only [decide_eq_true_eq] at *
            omega
          have htotal : ∀ a b : CMConversation,
              (decide (b.updatedAt ≤ a.updatedAt) ||
                decide (a.updatedAt ≤ b.updatedAt)) = true := by
            intro a b
            simp only [Bool.or_eq_true, decide_eq_true_eq]
            omega
          cases hrem : ConversationManager.getAllConversations
              { st with conversations := mapDelete st.conversations conversationId }
            with
          | nil =>
              unfold ConversationManager.getAllConversations at hrem
              dsimp only at hrem
              have hperm := List.mergeSort_perm
                ((mapDelete st.conversations conversationId).map Prod.snd)
                (fun a b => decide (b.updatedAt ≤ a.updatedAt))
              rw [hrem] at hperm
              have hnil2 : (mapDelete st.conversations conversationId).map
                  Prod.snd = [] := hperm.symm.eq_nil
              have hnil3 : mapDelete st.conversations conversationId = [] :=
                List.map_eq_nil_iff.mp hnil2
              dsimp only
              unfold ConversationManager.createNewConversation
              refine ⟨freshId, _, rfl, mapGet?_mapSet_self _ _ _, ?_⟩
              intro heq p hp
              rw [hnil3] at hp
              cases hp
          | cons chead ctail =>
              unfold ConversationManager.getAllConversations at hrem
              dsimp only at hrem
              dsimp only
              have hperm := List.mergeSort_perm
                ((mapDelete st.conversations conversationId).map Prod.snd)
                (fun a b => decide (b.updatedAt ≤ a.updatedAt))
              have hheadmem : chead ∈
                  (mapDelete st.conversations conversationId).map Prod.snd := by
                apply hperm.mem_iff.mp
                rw [hrem]
                simp
              rcases List.mem_map.mp hheadmem with ⟨q, hq, hq2⟩
              have hqst : q ∈ st.conversations :=
                (List.filter_sublist st.conversations).subset hq
              have hqid : q.2.id = q.1 := hwf.1 q hqst
              have hnd2 : ((mapDelete st.conversations conversationId).map
                  Prod.fst).Nodup :=
                ((List.filter_sublist st.conversations).map Prod.fst).nodup hwf.2
              have hpair : (chead.id, chead) ∈
                  mapDelete st.conversations conversationId := by
                have : q = (chead.id, chead) := by
                  obtain ⟨q1, q2⟩ := q
                  simp only at hq2
                  rw [hq2] at hqid
                  simp only at hqid
                  rw [hq2, hqid]
                rw [← this]
                exact hq
              have hlook : mapGet? (mapDelete st.conversations conversationId)
                  chead.id = some chead :=
                mapGet?_of_mem_nodup _ _ _ hpair hnd2
              refine ⟨chead.id, chead, rfl, hlook, ?_⟩
              intro heq p hp
              have hsorted := List.sorted_mergeSort htrans htotal
                ((mapDelete st.conversations conversationId).map Prod.snd)
              rw [hrem] at hsorted
              have hpmem : p.2 ∈ chead :: ctail := by
                rw [← hrem]
                exact hperm.symm.mem_iff.mp (List.mem_map_of_mem Prod.snd hp)
              rcases List.mem_cons.mp hpmem with hph | hpt
              · rw [hph]
              · have := (List.pairwise_cons.mp hsorted).1 p.2 hpt
                simpa using this
        · rw [if_neg hcd]
          have hne : conversationId ≠ cid := by
            intro he
            apply hcd
            rw [he]
            exact hcur
          refine ⟨cid, c0, hcur, ?_, ?_⟩
          · dsimp only
            rw [mapGet?_mapDelete_ne _ _ _ (Ne.symm hne)]
            exact hc0
          · intro heq
            exact absurd heq hne

/-- C10 witness: deleting the current conversation of a concrete
three-conversation manager yields a valid current pointer whose
conversation dominates the remaining update times. -/
theorem C10_witness :
    ∃ cid2 c2,
      (ConversationManager.deleteConversation st10 "c2" "f1" "d"
        99).2.currentConversationId = some cid2 ∧
      mapGet? (ConversationManager.deleteConversation st10 "c2" "f1" "d"
        99).2.conversations cid2 = some c2 ∧
      ("c2" = "c2" →
        ∀ p ∈ mapDelete st10.conversations "c2", p.2.updatedAt ≤ c2.updatedAt) :=
  (C10_theorem st10 "c2" "f1" "d" 99).2 "c2" (by unfold cmWellFormed; decide)
    (by decide) ⟨convB, by decide⟩
